import Mathlib

set_option maxRecDepth 100000

/-!
Verification of the CodeRefine review service (`src/backend/main.py`).

The embedding works over `List Char` (Python `str`).  The regex patterns of
`parse_review_response` all have the shape `Header:(.*?)(Next:|$)` with
`re.DOTALL` and no `re.MULTILINE`, so a match is: the first occurrence of the
header, then the minimal body up to the first occurrence of the next header
after it, else up to `$` (end of string, or just before a newline that ends
the string).  `splitFirst` below is the first-occurrence scan these
behaviours reduce to.
-/

namespace CodeRefine

/-- Python `str.isspace` / `str.strip` whitespace over the ASCII range
(space, tab, newline, carriage return, vertical tab, form feed). -/
def pyIsSpace (c : Char) : Bool :=
  c = ' ' || c = '\t' || c = '\n' || c = '\r' || c = '\x0b' || c = '\x0c'

/-- Python `text.split("\n")`: split into lines at every newline; the empty
string yields one empty line, a trailing newline yields a final empty line. -/
def splitLines : List Char → List (List Char)
  | [] => [[]]
  | c :: rest =>
    if c = '\n' then [] :: splitLines rest
    else
      match splitLines rest with
      | [] => [[c]]
      | l :: ls => (c :: l) :: ls

/-- A line counts when `l.strip()` is truthy: it has a non-whitespace char. -/
def isCounted (l : List Char) : Bool :=
  l.any (fun c => !pyIsSpace c)

/-- `len([l for l in body.split("\n") if l.strip()])`. -/
def countNonBlankLines (body : List Char) : Nat :=
  ((splitLines body).filter isCounted).length

/-- First occurrence of `pat` in `s`: `some (pre, suf)` with
`s = pre ++ pat ++ suf` at the leftmost occurrence, `none` when `pat` does
not occur.  This is `re.search` for a literal pattern. -/
def splitFirst (pat : List Char) : List Char → Option (List Char × List Char)
  | [] => if pat.isPrefixOf ([] : List Char) then some ([], []) else none
  | c :: rest =>
    if pat.isPrefixOf (c :: rest) then some ([], (c :: rest).drop pat.length)
    else
      match splitFirst pat rest with
      | some (pre, suf) => some (c :: pre, suf)
      | none => none

/-- `$` without `re.MULTILINE` matches just before a newline that ends the
string (the leftmost `$` position a lazy scan reaches first), else at the
end; the lazy body therefore drops one trailing newline when present. -/
def dropTrailingNewline (l : List Char) : List Char :=
  match l.getLast? with
  | some '\n' => l.dropLast
  | _ => l

/-- `count` for a middle section pattern `header(.*?)(next|$)` (DOTALL):
0 when the header is absent; otherwise the non-blank line count of the text
between the first header occurrence and the first following occurrence of
`next`, or of the rest of the text (`$`-adjusted) when `next` is absent. -/
def countSection (header next : List Char) (text : List Char) : Nat :=
  match splitFirst header text with
  | none => 0
  | some (_, rest) =>
    match splitFirst next rest with
    | some (body, _) => countNonBlankLines body
    | none => countNonBlankLines (dropTrailingNewline rest)

/-- `count` for the last pattern `Low Priority:(.*)` (DOTALL, greedy):
everything after the first header occurrence, to the very end. -/
def countSectionLast (header : List Char) (text : List Char) : Nat :=
  match splitFirst header text with
  | none => 0
  | some (_, rest) => countNonBlankLines rest

def criticalHeader : List Char := "Critical Issues:".toList

def highHeader : List Char := "High Priority:".toList

def mediumHeader : List Char := "Medium Priority:".toList

def lowHeader : List Char := "Low Priority:".toList

/-- `parse_review_response` from `src/backend/main.py`: the returned dict,
as the ordered key/value pairs of its literal. -/
def parse_review_response (review_text : List Char) : List (String × Nat) :=
  [ ("critical_count", countSection criticalHeader highHeader review_text),
    ("high_count", countSection highHeader mediumHeader review_text),
    ("medium_count", countSection mediumHeader lowHeader review_text),
    ("low_count", countSectionLast lowHeader review_text) ]

/-- Number of lines of a text, as Python `len(text.split("\n"))`. -/
def numLines (text : List Char) : Nat :=
  (splitLines text).length

/-- Python `str.strip()`: drop whitespace from both ends. -/
def pyStrip (l : List Char) : List Char :=
  ((l.dropWhile pyIsSpace).reverse.dropWhile pyIsSpace).reverse

/-- `CodeReviewRequest` (pydantic model): `code` with `min_length=1`,
`focus_areas` defaulting to `[]`. -/
structure CodeReviewRequest where
  code : List Char
  focus_areas : List (List Char)
deriving Repr, DecidableEq

/-- The only constraint pydantic enforces on `code`: `min_length=1`. -/
def codeValid (code : List Char) : Bool :=
  1 ≤ code.length

/-- The default focus string: `", ".join(focus_areas) if focus_areas else
"general quality"` — Python list truthiness, so the default fires exactly
when the list is empty. -/
def focusStr (areas : List (List Char)) : List Char :=
  if areas.isEmpty then "general quality".toList else List.intercalate ", ".toList areas

def analysisPromptHead : List Char :=
  "\nYou are a senior code reviewer.\n\nAnalyze the following code focusing on ".toList

def analysisPromptTail : List Char :=
  ".\n\nReturn findings strictly in this format:\n\nCritical Issues:\nHigh Priority:\nMedium Priority:\nLow Priority:\n\nCode:\n".toList

/-- The `analysis_prompt` f-string of `review_code`. -/
def analysis_prompt (req : CodeReviewRequest) : List Char :=
  analysisPromptHead ++ focusStr req.focus_areas ++ analysisPromptTail ++ req.code ++ "\n".toList

/-- The `rewrite_prompt` f-string of `review_code`. -/
def rewrite_prompt (req : CodeReviewRequest) : List Char :=
  "\nRewrite the following code fixing bugs, improving readability,\nand following best practices. Return ONLY code.\n\nCode:\n".toList ++
    req.code ++ "\n".toList

/-- Outcome of one `client.chat.completions.create` call at the capability
boundary: either it returns (with `choices[0].message.content`, possibly
`None`), or it raises an exception carrying provider detail. -/
inductive CallResult where
  | ok (content : Option (List Char))
  | raised (detail : String)
deriving Repr, DecidableEq

structure HTTPError where
  status : Nat
  detail : String
deriving Repr, DecidableEq

structure CodeReviewResponse where
  analysis : List Char
  rewritten_code : List Char
  metrics : List (String × Nat)
deriving Repr, DecidableEq

/-- Result of the `/api/review` endpoint together with which model calls
were issued before it was produced. -/
structure Outcome where
  result : Except HTTPError CodeReviewResponse
  analysisCalled : Bool
  rewriteCalled : Bool
deriving Repr

/-- The `/api/review` endpoint: pydantic validation of `CodeReviewRequest`
(rejected with a 422 client error before the handler runs), then the
`review_code` handler body, whose `try`/`except` turns any raised call into
`HTTPException(500, "Internal AI processing error")`.  The two capability
call outcomes are passed in; `content or ""` coalesces a `None`/empty
completion to the empty string. -/
def review_code (req : CodeReviewRequest) (analysisCall rewriteCall : CallResult) : Outcome :=
  if codeValid req.code = false then
    { result := .error ⟨422, "String should have at least 1 character"⟩,
      analysisCalled := false, rewriteCalled := false }
  else
    match analysisCall with
    | .raised _ =>
      { result := .error ⟨500, "Internal AI processing error"⟩,
        analysisCalled := true, rewriteCalled := false }
    | .ok content =>
      match rewriteCall with
      | .raised _ =>
        { result := .error ⟨500, "Internal AI processing error"⟩,
          analysisCalled := true, rewriteCalled := true }
      | .ok rcontent =>
        { result := .ok
            { analysis := content.getD [],
              rewritten_code := pyStrip (rcontent.getD []),
              metrics := parse_review_response (content.getD []) },
          analysisCalled := true, rewriteCalled := true }

end CodeRefine

namespace CodeRefine

/-! ## Structured (JSON) mode, §4.3 Strategy B

The structured-output variant is one of the repository's evolutionary
snapshots and is not among the files under `src/`; it is modelled here from
the spec's schema and strictness rules. -/

/-- Modelled from the spec: JSON values, as produced by a strict JSON
decoder; `none` at the use sites below stands for text that is not valid
JSON at all. -/
inductive Json where
  | null
  | bool (b : Bool)
  | num (n : Int)
  | str (s : String)
  | arr (elems : List Json)
  | obj (fields : List (String × Json))

/-- Modelled from the spec: the fixed severity enumeration. -/
inductive Severity where
  | critical
  | high
  | medium
  | low
deriving Repr, DecidableEq

/-- Modelled from the spec: mapping a JSON string onto the enumeration;
anything outside the four members is rejected. -/
def severityOfString (s : String) : Option Severity :=
  if s = "critical" then some .critical
  else if s = "high" then some .high
  else if s = "medium" then some .medium
  else if s = "low" then some .low
  else none

/-- Modelled from the spec: an issue record — severity in the enumeration,
description text, optional positive line number (absent or null = unknown). -/
structure IssueRec where
  severity : Severity
  description : String
  line : Option Int
deriving Repr, DecidableEq

/-- Modelled from the spec: ParseError taxonomy for structured mode. -/
inductive ParseError where
  | malformedJson
  | missingField (name : String)
  | invalidField (name : String)
deriving Repr, DecidableEq

/-- Modelled from the spec: the structured result shape. -/
structure StructuredReview where
  issues : List IssueRec
  risk_score : Int
  summary : String
  rewritten_code : String
deriving Repr, DecidableEq

/-- First field with the given key in a JSON object. -/
def getField (fields : List (String × Json)) (key : String) : Option Json :=
  (fields.find? (fun p => p.1 == key)).map (fun p => p.2)

/-- Modelled from the spec: strict decoding of one element of `issues`. -/
def decodeIssue (j : Json) : Except ParseError IssueRec :=
  match j with
  | .obj fs =>
    match getField fs "severity" with
    | none => .error (.missingField "severity")
    | some (.str s) =>
      match severityOfString s with
      | none => .error (.invalidField "severity")
      | some sev =>
        match getField fs "description" with
        | none => .error (.missingField "description")
        | some (.str d) =>
          match getField fs "line" with
          | none => .ok ⟨sev, d, none⟩
          | some .null => .ok ⟨sev, d, none⟩
          | some (.num n) =>
            if 1 ≤ n then .ok ⟨sev, d, some n⟩ else .error (.invalidField "line")
          | some _ => .error (.invalidField "line")
        | some _ => .error (.invalidField "description")
    | some _ => .error (.invalidField "severity")
  | _ => .error (.invalidField "issues")

/-- Modelled from the spec: decode the `issues` array strictly — the first
failing element fails the whole array. -/
def decodeIssues : List Json → Except ParseError (List IssueRec)
  | [] => .ok []
  | j :: rest =>
    match decodeIssue j with
    | .error e => .error e
    | .ok i =>
      match decodeIssues rest with
      | .error e => .error e
      | .ok is => .ok (i :: is)

/-- Modelled from the spec: Strategy B strict decode.  `none` is text that
failed JSON parsing; every schema violation is a hard `ParseError`, with no
coercion and no fallback to zero counts. -/
def decodeStructured (raw : Option Json) : Except ParseError StructuredReview :=
  match raw with
  | none => .error .malformedJson
  | some (.obj fs) =>
    match getField fs "risk_score" with
    | none => .error (.missingField "risk_score")
    | some (.num n) =>
      if 0 ≤ n ∧ n ≤ 100 then
        match getField fs "issues" with
        | none => .error (.missingField "issues")
        | some (.arr xs) =>
          match decodeIssues xs with
          | .error e => .error e
          | .ok issues =>
            match getField fs "summary" with
            | none => .error (.missingField "summary")
            | some (.str sm) =>
              match getField fs "rewritten_code" with
              | none => .error (.missingField "rewritten_code")
              | some (.str rc) => .ok ⟨issues, n, sm, rc⟩
              | some _ => .error (.invalidField "rewritten_code")
            | some _ => .error (.invalidField "summary")
        | some _ => .error (.invalidField "issues")
      else .error (.invalidField "risk_score")
    | some _ => .error (.invalidField "risk_score")
  | some _ => .error .malformedJson

/-- Whether a structured decode failed. -/
def decodeFailed (r : Except ParseError StructuredReview) : Bool :=
  match r with
  | .error _ => true
  | .ok _ => false

/-- Whether decoding one issue failed. -/
def issueDecodeFailed (r : Except ParseError IssueRec) : Bool :=
  match r with
  | .error _ => true
  | .ok _ => false

/-- Whether `pat` occurs in `s` as a contiguous substring. -/
def containsSub (pat s : List Char) : Bool :=
  (splitFirst pat s).isSome

end CodeRefine

namespace CodeRefine

/-! ## Characterization of `splitFirst` -/

theorem prefix_append_drop {pat s : List Char} (h : pat.isPrefixOf s = true) :
    pat ++ s.drop pat.length = s := by
  obtain ⟨t, ht⟩ := List.isPrefixOf_iff_prefix.mp h
  subst ht
  rw [List.drop_left]

theorem splitFirst_eq {pat : List Char} :
    ∀ {s pre suf : List Char}, splitFirst pat s = some (pre, suf) → s = pre ++ pat ++ suf := by
  intro s
  induction s with
  | nil =>
    intro pre suf h
    unfold splitFirst at h
    split at h
    · next hp =>
      simp only [Option.some.injEq, Prod.mk.injEq] at h
      obtain ⟨h1, h2⟩ := h
      subst h1; subst h2
      have := List.isPrefixOf_iff_prefix.mp hp
      obtain ⟨t, ht⟩ := this
      rcases List.append_eq_nil.mp ht with ⟨hpat, -⟩
      simp [hpat]
    · simp at h
  | cons c rest ih =>
    intro pre suf h
    unfold splitFirst at h
    split at h
    · next hp =>
      simp only [Option.some.injEq, Prod.mk.injEq] at h
      obtain ⟨h1, h2⟩ := h
      subst h1; subst h2
      simpa using (prefix_append_drop hp).symm
    · next hp =>
      split at h
      · next pre' suf' heq =>
        simp only [Option.some.injEq, Prod.mk.injEq] at h
        obtain ⟨h1, h2⟩ := h
        subst h1; subst h2
        simpa using ih heq
      · simp at h

theorem splitFirst_min {pat : List Char} :
    ∀ {s pre suf : List Char}, splitFirst pat s = some (pre, suf) →
      ∀ p q, s = p ++ pat ++ q → pre.length ≤ p.length := by
  intro s
  induction s with
  | nil =>
    intro pre suf h p q _
    unfold splitFirst at h
    split at h
    · simp only [Option.some.injEq, Prod.mk.injEq] at h
      obtain ⟨h1, -⟩ := h
      subst h1
      exact Nat.zero_le _
    · simp at h
  | cons c rest ih =>
    intro pre suf h p q hs
    unfold splitFirst at h
    split at h
    · simp only [Option.some.injEq, Prod.mk.injEq] at h
      obtain ⟨h1, -⟩ := h
      subst h1
      exact Nat.zero_le _
    · next hp =>
      split at h
      · next pre' suf' heq =>
        simp only [Option.some.injEq, Prod.mk.injEq] at h
        obtain ⟨h1, -⟩ := h
        subst h1
        cases p with
        | nil =>
          exfalso
          apply hp
          apply List.isPrefixOf_iff_prefix.mpr
          exact ⟨q, by simpa using hs.symm⟩
        | cons d p2 =>
          have hs' : rest = p2 ++ pat ++ q := by
            have := hs
            simp only [List.cons_append, List.cons.injEq] at this
            exact this.2
          have := ih heq p2 q hs'
          simpa using Nat.succ_le_succ this
      · simp at h

theorem splitFirst_none {pat : List Char} :
    ∀ {s : List Char}, splitFirst pat s = none → ∀ p q, s ≠ p ++ pat ++ q := by
  intro s
  induction s with
  | nil =>
    intro h p q heq
    unfold splitFirst at h
    split at h
    · simp at h
    · next hp =>
      apply hp
      apply List.isPrefixOf_iff_prefix.mpr
      rcases List.append_eq_nil.mp heq.symm with ⟨h1, h2⟩
      rcases List.append_eq_nil.mp h1 with ⟨-, hpat⟩
      exact ⟨[], by simp [hpat]⟩
  | cons c rest ih =>
    intro h p q heq
    unfold splitFirst at h
    split at h
    · simp at h
    · next hp =>
      split at h
      · simp at h
      · next hnone =>
        cases p with
        | nil =>
          apply hp
          apply List.isPrefixOf_iff_prefix.mpr
          exact ⟨q, by simpa using heq.symm⟩
        | cons d p2 =>
          have hs' : rest = p2 ++ pat ++ q := by
            simp only [List.cons_append, List.cons.injEq] at heq
            exact heq.2
          exact ih hnone p2 q hs'

theorem splitFirst_eq_none_of {pat s : List Char} (h : ∀ p q, s ≠ p ++ pat ++ q) :
    splitFirst pat s = none := by
  cases hsf : splitFirst pat s with
  | none => rfl
  | some pr =>
    obtain ⟨pre, suf⟩ := pr
    exact absurd (splitFirst_eq hsf) (h pre suf)

theorem containsSub_iff {pat s : List Char} :
    containsSub pat s = true ↔ ∃ p q, s = p ++ pat ++ q := by
  unfold containsSub
  cases hsf : splitFirst pat s with
  | none =>
    simp only [Option.isSome_none, Bool.false_eq_true, false_iff]
    rintro ⟨p, q, heq⟩
    exact splitFirst_none hsf p q heq
  | some pr =>
    obtain ⟨pre, suf⟩ := pr
    simp only [Option.isSome_some, true_iff]
    exact ⟨pre, suf, splitFirst_eq hsf⟩

theorem splitFirst_of_min {pat s p q : List Char} (hs : s = p ++ pat ++ q)
    (hmin : ∀ p2 q2, s = p2 ++ pat ++ q2 → p.length ≤ p2.length) :
    splitFirst pat s = some (p, q) := by
  cases hsf : splitFirst pat s with
  | none => exact absurd hs (splitFirst_none hsf p q)
  | some pr =>
    obtain ⟨pre, suf⟩ := pr
    have h1 : s = pre ++ pat ++ suf := splitFirst_eq hsf
    have h2 := splitFirst_min hsf p q hs
    have h3 := hmin pre suf h1
    have hlen : pre.length = p.length := Nat.le_antisymm h2 h3
    have hcat : pre ++ (pat ++ suf) = p ++ (pat ++ q) := by
      rw [← List.append_assoc, ← List.append_assoc, ← h1, ← hs]
    obtain ⟨hpq, hrest⟩ := List.append_inj hcat hlen
    have hsufq : suf = q := by
      have := List.append_inj hrest (rfl : pat.length = pat.length)
      exact this.2
    rw [hpq, hsufq]

theorem splitFirst_append {pat A pre suf : List Char} (B : List Char)
    (h : splitFirst pat A = some (pre, suf)) :
    splitFirst pat (A ++ B) = some (pre, suf ++ B) := by
  have hA : A = pre ++ pat ++ suf := splitFirst_eq h
  have hlenA : A.length = pre.length + pat.length + suf.length := by
    rw [hA]; simp only [List.length_append]
  apply splitFirst_of_min
  · rw [hA]; simp [List.append_assoc]
  · intro p2 q2 heq
    by_cases hle : p2.length + pat.length ≤ A.length
    · have h1 : (A ++ B).take A.length = A := List.take_left A B
      rw [heq] at h1
      rw [List.take_append_eq_append_take] at h1
      rw [List.take_of_length_le (by simp only [List.length_append]; omega)] at h1
      exact splitFirst_min h p2 _ h1.symm
    · omega

theorem containsSub_append_cases {pat A B : List Char} (h : containsSub pat (A ++ B) = true) :
    containsSub pat A = true ∨ containsSub pat B = true ∨
      ∃ k, 0 < k ∧ k < pat.length ∧
        (pat.take k).isSuffixOf A = true ∧ (pat.drop k).isPrefixOf B = true := by
  obtain ⟨p, q, heq⟩ := containsSub_iff.mp h
  by_cases h1 : p.length + pat.length ≤ A.length
  · left
    have h2 : (A ++ B).take A.length = A := List.take_left A B
    rw [heq] at h2
    rw [List.take_append_eq_append_take] at h2
    rw [List.take_of_length_le (by simp only [List.length_append]; omega)] at h2
    exact containsSub_iff.mpr ⟨p, _, h2.symm⟩
  · by_cases h2 : A.length ≤ p.length
    · right; left
      have h3 : (A ++ B).drop A.length = B := List.drop_left A B
      rw [heq] at h3
      rw [List.drop_append_eq_append_drop] at h3
      have hq : q.drop (A.length - (p ++ pat).length) = q := by
        have : A.length - (p ++ pat).length = 0 := by simp only [List.length_append]; omega
        rw [this]; rfl
      rw [hq] at h3
      rw [List.drop_append_eq_append_drop] at h3
      have hpat : pat.drop (A.length - p.length) = pat := by
        have : A.length - p.length = 0 := by omega
        rw [this]; rfl
      rw [hpat] at h3
      exact containsSub_iff.mpr ⟨p.drop A.length, q, by rw [← h3]⟩
    · right; right
      refine ⟨A.length - p.length, by omega, by omega, ?_, ?_⟩
      · have h4 : (A ++ B).take A.length = A := List.take_left A B
        rw [heq] at h4
        rw [List.append_assoc] at h4
        rw [List.take_append_eq_append_take] at h4
        rw [List.take_of_length_le (by omega)] at h4
        rw [List.take_append_eq_append_take] at h4
        have hq0 : q.take (A.length - p.length - pat.length) = [] := by
          have : A.length - p.length - pat.length = 0 := by omega
          rw [this]; rfl
        rw [hq0, List.append_nil] at h4
        exact List.isSuffixOf_iff_suffix.mpr ⟨p, h4⟩
      · have h5 : (A ++ B).drop A.length = B := List.drop_left A B
        rw [heq] at h5
        rw [List.append_assoc] at h5
        rw [List.drop_append_eq_append_drop] at h5
        rw [List.drop_eq_nil_of_le (by omega)] at h5
        rw [List.drop_append_eq_append_drop] at h5
        have hq0 : q.drop (A.length - p.length - pat.length) = q := by
          have : A.length - p.length - pat.length = 0 := by omega
          rw [this]; rfl
        rw [hq0, List.nil_append] at h5
        exact List.isPrefixOf_iff_prefix.mpr ⟨q, h5⟩

/-! ## Reduction equations for the section counters -/

theorem countSection_none {header next text : List Char}
    (h : splitFirst header text = none) : countSection header next text = 0 := by
  simp [countSection, h]

theorem countSection_mid {header next text pre rest body rest2 : List Char}
    (h1 : splitFirst header text = some (pre, rest))
    (h2 : splitFirst next rest = some (body, rest2)) :
    countSection header next text = countNonBlankLines body := by
  simp [countSection, h1, h2]

theorem countSection_tail {header next text pre rest : List Char}
    (h1 : splitFirst header text = some (pre, rest))
    (h2 : splitFirst next rest = none) :
    countSection header next text = countNonBlankLines (dropTrailingNewline rest) := by
  simp [countSection, h1, h2]

theorem countSectionLast_none {header text : List Char}
    (h : splitFirst header text = none) : countSectionLast header text = 0 := by
  simp [countSectionLast, h]

theorem countSectionLast_some {header text pre rest : List Char}
    (h : splitFirst header text = some (pre, rest)) :
    countSectionLast header text = countNonBlankLines rest := by
  simp [countSectionLast, h]

/-! ## Bounds: every section count is at most the line count of the input -/

theorem splitLines_length (l : List Char) : (splitLines l).length = l.count '\n' + 1 := by
  induction l with
  | nil => rfl
  | cons c rest ih =>
    unfold splitLines
    by_cases hc : c = '\n'
    · subst hc
      rw [if_pos rfl]
      simp only [List.length_cons, List.count_cons_self]
      omega
    · rw [if_neg hc]
      cases hsl : splitLines rest with
      | nil => rw [hsl] at ih; simp at ih
      | cons l0 ls =>
        rw [hsl] at ih
        simp only [List.length_cons] at ih
        simp [hsl, List.count_cons_of_ne (Ne.symm hc)]
        omega

theorem countNonBlankLines_le (body : List Char) :
    countNonBlankLines body ≤ body.count '\n' + 1 := by
  unfold countNonBlankLines
  calc ((splitLines body).filter isCounted).length ≤ (splitLines body).length :=
        List.length_filter_le _ _
    _ = body.count '\n' + 1 := splitLines_length body

theorem dropTrailingNewline_count_le (l : List Char) :
    (dropTrailingNewline l).count '\n' ≤ l.count '\n' := by
  unfold dropTrailingNewline
  split
  · exact (List.dropLast_sublist l).count_le '\n'
  · exact Nat.le_refl _

theorem countSection_le (header next text : List Char) :
    countSection header next text ≤ numLines text := by
  rw [numLines, splitLines_length]
  cases hsf : splitFirst header text with
  | none => rw [countSection_none hsf]; exact Nat.zero_le _
  | some pr =>
    obtain ⟨pre, rest⟩ := pr
    have htext : text = pre ++ header ++ rest := splitFirst_eq hsf
    have hcount : rest.count '\n' ≤ text.count '\n' := by
      rw [htext]
      simp only [List.count_append]
      omega
    cases hsf2 : splitFirst next rest with
    | none =>
      rw [countSection_tail hsf hsf2]
      have h1 := countNonBlankLines_le (dropTrailingNewline rest)
      have h2 := dropTrailingNewline_count_le rest
      omega
    | some pr2 =>
      obtain ⟨body, rest2⟩ := pr2
      rw [countSection_mid hsf hsf2]
      have hrest : rest = body ++ next ++ rest2 := splitFirst_eq hsf2
      have h1 := countNonBlankLines_le body
      have h2 : body.count '\n' ≤ rest.count '\n' := by
        rw [hrest]
        simp only [List.count_append]
        omega
      omega

theorem countSectionLast_le (header text : List Char) :
    countSectionLast header text ≤ numLines text := by
  rw [numLines, splitLines_length]
  cases hsf : splitFirst header text with
  | none => rw [countSectionLast_none hsf]; exact Nat.zero_le _
  | some pr =>
    obtain ⟨pre, rest⟩ := pr
    rw [countSectionLast_some hsf]
    have htext : text = pre ++ header ++ rest := splitFirst_eq hsf
    have h1 := countNonBlankLines_le rest
    have h2 : rest.count '\n' ≤ text.count '\n' := by
      rw [htext]
      simp only [List.count_append]
      omega
    omega

end CodeRefine

namespace CodeRefine

/-! ## Claim theorems -/

/-- C4: parsing `"Critical Issues:\nbug A\nbug B\nHigh Priority:\nissue C\n"`
yields the metrics map with exactly the fixed keys and counts
critical=2, high=1, medium=0, low=0, each count being the number of
non-blank lines of its section. -/
theorem c4_round_trip :
    parse_review_response "Critical Issues:\nbug A\nbug B\nHigh Priority:\nissue C\n".toList =
      [("critical_count", 2), ("high_count", 1), ("medium_count", 0), ("low_count", 0)] := by
  decide

/-- C9: the parser is total (it is a Lean function) and for every input
returns exactly the four fixed keys, each bound to a count that is at most
the number of lines of the input. -/
theorem c9_parser_total_bounds (text : List Char) :
    (parse_review_response text).map Prod.fst =
      ["critical_count", "high_count", "medium_count", "low_count"] ∧
    ∀ kv ∈ parse_review_response text, kv.2 ≤ numLines text := by
  constructor
  · rfl
  · intro kv hkv
    simp only [parse_review_response, List.mem_cons, List.not_mem_nil, or_false] at hkv
    rcases hkv with rfl | rfl | rfl | rfl
    · exact countSection_le _ _ _
    · exact countSection_le _ _ _
    · exact countSection_le _ _ _
    · exact countSectionLast_le _ _

/-- C9 witness: the bound instantiated at a concrete input and entry. -/
theorem c9_parser_total_bounds_witness :
    (("critical_count", 0) ∈ parse_review_response []) ∧ 0 ≤ numLines ([] : List Char) :=
  ⟨by decide, (c9_parser_total_bounds []).2 ("critical_count", 0) (by decide)⟩

/-- C5: a header that does not occur in the text yields count zero for its
severity (the parser, a total function, never raises). -/
theorem c5_missing_header_zero (text : List Char) :
    ((∀ p q, text ≠ p ++ criticalHeader ++ q) →
       (parse_review_response text).lookup "critical_count" = some 0) ∧
    ((∀ p q, text ≠ p ++ highHeader ++ q) →
       (parse_review_response text).lookup "high_count" = some 0) ∧
    ((∀ p q, text ≠ p ++ mediumHeader ++ q) →
       (parse_review_response text).lookup "medium_count" = some 0) ∧
    ((∀ p q, text ≠ p ++ lowHeader ++ q) →
       (parse_review_response text).lookup "low_count" = some 0) := by
  refine ⟨fun h => ?_, fun h => ?_, fun h => ?_, fun h => ?_⟩
  · simp [parse_review_response, List.lookup, countSection_none (splitFirst_eq_none_of h)]
  · simp [parse_review_response, List.lookup, countSection_none (splitFirst_eq_none_of h)]
  · simp [parse_review_response, List.lookup, countSection_none (splitFirst_eq_none_of h)]
  · simp [parse_review_response, List.lookup, countSectionLast_none (splitFirst_eq_none_of h)]

/-- C5 witness: `parse("no headers here")` yields all four counts zero. -/
theorem c5_missing_header_zero_witness :
    (parse_review_response "no headers here".toList).lookup "critical_count" = some 0 ∧
    (parse_review_response "no headers here".toList).lookup "high_count" = some 0 ∧
    (parse_review_response "no headers here".toList).lookup "medium_count" = some 0 ∧
    (parse_review_response "no headers here".toList).lookup "low_count" = some 0 :=
  ⟨(c5_missing_header_zero _).1 (splitFirst_none (by decide)),
   (c5_missing_header_zero _).2.1 (splitFirst_none (by decide)),
   (c5_missing_header_zero _).2.2.1 (splitFirst_none (by decide)),
   (c5_missing_header_zero _).2.2.2 (splitFirst_none (by decide))⟩

/-- C1 counterexample: the request whose `code` is the single space `" "`
is whitespace-only, yet it passes validation and the analysis model call is
attempted — the claim that whitespace-only code is rejected before any
model call is false on the code (`min_length=1` checks length only). -/
theorem c1_counterexample :
    " ".toList.all pyIsSpace = true ∧
    (review_code ⟨" ".toList, []⟩ (.ok (some "ok".toList))
        (.ok (some "code".toList))).analysisCalled = true := by
  exact ⟨by decide, rfl⟩

/-- C1 amended: a request is rejected before any model call exactly when
`code` is the empty string; any non-empty `code` — whitespace-only
included — passes validation and the analysis call is attempted. -/
theorem c1_amended_reject_iff_empty (code : List Char) (areas : List (List Char))
    (ac rc : CallResult) :
    ((review_code ⟨code, areas⟩ ac rc).analysisCalled = true ↔ code ≠ []) ∧
    (code = [] →
      (review_code ⟨code, areas⟩ ac rc).result =
        .error ⟨422, "String should have at least 1 character"⟩ ∧
      (review_code ⟨code, areas⟩ ac rc).analysisCalled = false ∧
      (review_code ⟨code, areas⟩ ac rc).rewriteCalled = false) := by
  cases code with
  | nil => cases ac <;> cases rc <;> simp [review_code, codeValid]
  | cons c cs => cases ac <;> cases rc <;> simp [review_code, codeValid]

/-- C1 amended witness: the empty request is rejected with a client error
and no model call. -/
theorem c1_amended_reject_iff_empty_witness :
    (review_code ⟨[], []⟩ (.ok none) (.ok none)).result =
      .error ⟨422, "String should have at least 1 character"⟩ :=
  ((c1_amended_reject_iff_empty [] [] (.ok none) (.ok none)).2 rfl).1

/-- C2 counterexample: an empty analysis completion is silently accepted —
the request succeeds with empty `analysis` and all-zero counts instead of
terminating as a failure (`content or ""` coalesces it). -/
theorem c2_counterexample :
    (review_code ⟨"x".toList, []⟩ (.ok (some [])) (.ok (some "y".toList))).result =
      .ok ⟨[], "y".toList,
        [("critical_count", 0), ("high_count", 0), ("medium_count", 0), ("low_count", 0)]⟩ := by
  rfl

/-- C2 amended: an empty (or `None`) completion is coalesced to the empty
string and converted into a successful response — empty analysis text and
all-zero counts; only a raised provider exception fails the request. -/
theorem c2_amended_empty_completion_ok (req : CodeReviewRequest)
    (h : codeValid req.code = true) (ac rc : Option (List Char))
    (ha : ac.getD [] = []) :
    (review_code req (.ok ac) (.ok rc)).result =
      .ok ⟨[], pyStrip (rc.getD []),
        [("critical_count", 0), ("high_count", 0), ("medium_count", 0), ("low_count", 0)]⟩ := by
  obtain ⟨code, areas⟩ := req
  simp only [codeValid] at h
  simp [review_code, codeValid, h, ha]
  decide

/-- C2 amended witness: concrete empty analysis completion, successful
response. -/
theorem c2_amended_empty_completion_ok_witness :
    (review_code ⟨"x".toList, []⟩ (.ok none) (.ok (some "y".toList))).result =
      .ok ⟨[], "y".toList,
        [("critical_count", 0), ("high_count", 0), ("medium_count", 0), ("low_count", 0)]⟩ :=
  c2_amended_empty_completion_ok ⟨"x".toList, []⟩ (by decide) none (some "y".toList) rfl

/-- C6: if either sequential model call raises — including analysis
succeeding and rewrite failing — the request terminates with the single
generic 500 error whose detail is a fixed string independent of the
provider detail `d` (nothing from `d` is echoed), no partial result is
returned, and when the analysis call raises the rewrite call is never
issued. -/
theorem c6_upstream_failure_generic (req : CodeReviewRequest)
    (h : codeValid req.code = true) (d : String) :
    (∀ rc, (review_code req (.raised d) rc).result =
        .error ⟨500, "Internal AI processing error"⟩ ∧
      (review_code req (.raised d) rc).rewriteCalled = false) ∧
    (∀ ac, (review_code req (.ok ac) (.raised d)).result =
        .error ⟨500, "Internal AI processing error"⟩) := by
  obtain ⟨code, areas⟩ := req
  constructor
  · intro rc
    simp [review_code, h]
  · intro ac
    simp [review_code, h]

theorem countSection_chars {header next text pre suf : List Char}
    (htext : text = pre ++ header ++ suf)
    (hmin : ∀ p q, text = p ++ header ++ q → pre.length ≤ p.length) :
    ((∀ p q, suf ≠ p ++ next ++ q) →
       countSection header next text = countNonBlankLines (dropTrailingNewline suf)) ∧
    (∀ b r, suf = b ++ next ++ r →
       (∀ b2 r2, suf = b2 ++ next ++ r2 → b.length ≤ b2.length) →
       countSection header next text = countNonBlankLines b) := by
  have hsf : splitFirst header text = some (pre, suf) := splitFirst_of_min htext hmin
  constructor
  · intro h
    exact countSection_tail hsf (splitFirst_eq_none_of h)
  · intro b r hb hbmin
    exact countSection_mid hsf (splitFirst_of_min hb hbmin)

theorem countSectionLast_chars {header text pre suf : List Char}
    (htext : text = pre ++ header ++ suf)
    (hmin : ∀ p q, text = p ++ header ++ q → pre.length ≤ p.length) :
    countSectionLast header text = countNonBlankLines suf :=
  countSectionLast_some (splitFirst_of_min htext hmin)

/-- Definition following the claim C3's words, for comparison against the
code: the body attributed to a header runs from its first occurrence to the
next occurring header boundary among the four (whichever of them occurs
first afterwards), or to end of text. -/
def claimSectionCount (header text : List Char) : Nat :=
  match splitFirst header text with
  | none => 0
  | some (_, rest) =>
    countNonBlankLines (rest.take
      ([criticalHeader, highHeader, mediumHeader, lowHeader].foldr
        (fun h acc =>
          match splitFirst h rest with
          | some (pre, _) => min pre.length acc
          | none => acc) rest.length))

/-- C3 counterexample: on `"Critical Issues:\nbug\nMedium Priority:\nx\n"`
(`High Priority:` absent, `Medium Priority:` present) the code counts 3
non-blank lines for critical — its body runs to the end of the text, right
through the `Medium Priority:` header — while the claim's
next-occurring-header-boundary rule counts 1. -/
theorem c3_counterexample :
    (parse_review_response "Critical Issues:\nbug\nMedium Priority:\nx\n".toList).lookup
        "critical_count" = some 3 ∧
    claimSectionCount criticalHeader "Critical Issues:\nbug\nMedium Priority:\nx\n".toList = 1 ∧
    (3 : Nat) ≠ 1 :=
  ⟨by decide, by decide, by decide⟩

/-- C3 amended: each section's body runs from the first occurrence of its
header to the first subsequent occurrence of that header's nominal
successor only (`Critical Issues:`→`High Priority:`→`Medium Priority:`→
`Low Priority:`); when the successor is absent the body runs to end of text
(less one trailing newline), and `Low Priority:`'s body always runs to the
very end.  Other headers never terminate a section. -/
theorem c3_amended_nominal_successor (text : List Char) :
    (∀ pre suf, text = pre ++ criticalHeader ++ suf →
      (∀ p q, text = p ++ criticalHeader ++ q → pre.length ≤ p.length) →
      ((∀ p q, suf ≠ p ++ highHeader ++ q) →
         (parse_review_response text).lookup "critical_count" =
           some (countNonBlankLines (dropTrailingNewline suf))) ∧
      (∀ b r, suf = b ++ highHeader ++ r →
         (∀ b2 r2, suf = b2 ++ highHeader ++ r2 → b.length ≤ b2.length) →
         (parse_review_response text).lookup "critical_count" =
           some (countNonBlankLines b))) ∧
    (∀ pre suf, text = pre ++ highHeader ++ suf →
      (∀ p q, text = p ++ highHeader ++ q → pre.length ≤ p.length) →
      ((∀ p q, suf ≠ p ++ mediumHeader ++ q) →
         (parse_review_response text).lookup "high_count" =
           some (countNonBlankLines (dropTrailingNewline suf))) ∧
      (∀ b r, suf = b ++ mediumHeader ++ r →
         (∀ b2 r2, suf = b2 ++ mediumHeader ++ r2 → b.length ≤ b2.length) →
         (parse_review_response text).lookup "high_count" =
           some (countNonBlankLines b))) ∧
    (∀ pre suf, text = pre ++ mediumHeader ++ suf →
      (∀ p q, text = p ++ mediumHeader ++ q → pre.length ≤ p.length) →
      ((∀ p q, suf ≠ p ++ lowHeader ++ q) →
         (parse_review_response text).lookup "medium_count" =
           some (countNonBlankLines (dropTrailingNewline suf))) ∧
      (∀ b r, suf = b ++ lowHeader ++ r →
         (∀ b2 r2, suf = b2 ++ lowHeader ++ r2 → b.length ≤ b2.length) →
         (parse_review_response text).lookup "medium_count" =
           some (countNonBlankLines b))) ∧
    (∀ pre suf, text = pre ++ lowHeader ++ suf →
      (∀ p q, text = p ++ lowHeader ++ q → pre.length ≤ p.length) →
      (parse_review_response text).lookup "low_count" =
        some (countNonBlankLines suf)) := by
  refine ⟨?_, ?_, ?_, ?_⟩
  · intro pre suf htext hmin
    have hl : (parse_review_response text).lookup "critical_count" =
        some (countSection criticalHeader highHeader text) := by
      simp [parse_review_response, List.lookup]
    obtain ⟨h1, h2⟩ := countSection_chars htext hmin
    exact ⟨fun h => by rw [hl, h1 h],
           fun b r hb hbmin => by rw [hl, h2 b r hb hbmin]⟩
  · intro pre suf htext hmin
    have hl : (parse_review_response text).lookup "high_count" =
        some (countSection highHeader mediumHeader text) := by
      simp [parse_review_response, List.lookup]
    obtain ⟨h1, h2⟩ := countSection_chars htext hmin
    exact ⟨fun h => by rw [hl, h1 h],
           fun b r hb hbmin => by rw [hl, h2 b r hb hbmin]⟩
  · intro pre suf htext hmin
    have hl : (parse_review_response text).lookup "medium_count" =
        some (countSection mediumHeader lowHeader text) := by
      simp [parse_review_response, List.lookup]
    obtain ⟨h1, h2⟩ := countSection_chars htext hmin
    exact ⟨fun h => by rw [hl, h1 h],
           fun b r hb hbmin => by rw [hl, h2 b r hb hbmin]⟩
  · intro pre suf htext hmin
    have hl : (parse_review_response text).lookup "low_count" =
        some (countSectionLast lowHeader text) := by
      simp [parse_review_response, List.lookup]
    rw [hl, countSectionLast_chars htext hmin]

/-- C3 amended witness: on a text where `High Priority:` does follow
`Critical Issues:`, the critical body is exactly the text between the two
headers. -/
theorem c3_amended_nominal_successor_witness :
    (parse_review_response "Critical Issues:\nx\nHigh Priority:\ny".toList).lookup
        "critical_count" = some (countNonBlankLines "\nx\n".toList) :=
  ((c3_amended_nominal_successor "Critical Issues:\nx\nHigh Priority:\ny".toList).1
      [] "\nx\nHigh Priority:\ny".toList (by decide)
      (fun p q _ => Nat.zero_le _)).2
    "\nx\n".toList "\ny".toList (by decide)
    (splitFirst_min (show splitFirst highHeader "\nx\nHigh Priority:\ny".toList =
        some ("\nx\n".toList, "\ny".toList) by decide))

theorem containsSub_append_none {pat A B : List Char}
    (hA : containsSub pat A = false) (hB : containsSub pat B = false)
    (hst : ∀ k, 0 < k → k < pat.length →
      ¬((pat.take k).isSuffixOf A = true ∧ (pat.drop k).isPrefixOf B = true)) :
    containsSub pat (A ++ B) = false := by
  cases hcc : containsSub pat (A ++ B) with
  | false => rfl
  | true =>
    rcases containsSub_append_cases hcc with h | h | ⟨k, hk0, hkl, h1, h2⟩
    · rw [hA] at h; exact absurd h (by simp)
    · rw [hB] at h; exact absurd h (by simp)
    · exact absurd ⟨h1, h2⟩ (hst k hk0 hkl)

theorem containsSub_snoc_newline {pat X : List Char} (hlen : 1 < pat.length)
    (hnl : '\n' ∉ pat) (hX : containsSub pat X = false) :
    containsSub pat (X ++ ['\n']) = false := by
  apply containsSub_append_none hX
  · cases hcc : containsSub pat ['\n'] with
    | false => rfl
    | true =>
      obtain ⟨p, q, heq⟩ := containsSub_iff.mp hcc
      have hle := congrArg List.length heq
      simp only [List.length_append, List.length_cons, List.length_nil] at hle
      omega
  · intro k hk0 hkl hpair
    obtain ⟨t, ht⟩ := List.isPrefixOf_iff_prefix.mp hpair.2
    cases hd : pat.drop k with
    | nil =>
      have : pat.length ≤ k := List.drop_eq_nil_iff.mp hd
      omega
    | cons c cs =>
      rw [hd, List.cons_append] at ht
      have hc : c = '\n' := by
        have := congrArg List.head? ht
        simpa using this
      subst hc
      have hmem : '\n' ∈ pat.drop k := by
        rw [hd]
        exact List.mem_cons_self _ _
      exact hnl (List.mem_of_mem_drop hmem)

/-- C8: with empty `focus_areas` the analysis prompt renders the focus slot
as the literal default "general quality" — the text after the first
"focusing on " is "general quality.", not "." — and the prompt contains
"general quality"; the empty-list rendering "focusing on ." appears nowhere
in the prompt unless the submitted code itself contains that text verbatim.
With non-empty `focus_areas` the prompt contains the elements joined with
", ". -/
theorem c8_focus_default_phrase (code : List Char) (areas : List (List Char)) :
    (areas = [] →
      splitFirst "focusing on ".toList (analysis_prompt ⟨code, areas⟩) =
        some ("\nYou are a senior code reviewer.\n\nAnalyze the following code ".toList,
          "general quality".toList ++ analysisPromptTail ++ code ++ "\n".toList) ∧
      containsSub "general quality".toList (analysis_prompt ⟨code, areas⟩) = true ∧
      (containsSub "focusing on .".toList code = false →
        containsSub "focusing on .".toList (analysis_prompt ⟨code, areas⟩) = false)) ∧
    (areas ≠ [] →
      containsSub (List.intercalate ", ".toList areas) (analysis_prompt ⟨code, areas⟩) = true) := by
  constructor
  · intro hempty
    subst hempty
    have hfocus : focusStr ([] : List (List Char)) = "general quality".toList := rfl
    have hprompt : analysis_prompt ⟨code, []⟩ =
        (analysisPromptHead ++ "general quality".toList ++ analysisPromptTail) ++
          (code ++ "\n".toList) := by
      simp [analysis_prompt, hfocus, List.append_assoc]
    refine ⟨?_, ?_, ?_⟩
    · have h0 : splitFirst "focusing on ".toList analysisPromptHead =
          some ("\nYou are a senior code reviewer.\n\nAnalyze the following code ".toList,
            []) := by decide
      have h1 := splitFirst_append
        ("general quality".toList ++ analysisPromptTail ++ code ++ "\n".toList) h0
      have h2 : analysis_prompt ⟨code, []⟩ =
          analysisPromptHead ++
            ("general quality".toList ++ analysisPromptTail ++ code ++ "\n".toList) := by
        simp [analysis_prompt, hfocus, List.append_assoc]
      rw [h2]
      simpa [List.append_assoc] using h1
    · apply containsSub_iff.mpr
      exact ⟨analysisPromptHead, analysisPromptTail ++ code ++ "\n".toList,
        by simp [analysis_prompt, hfocus, List.append_assoc]⟩
    · intro hcode
      have hXnl : containsSub "focusing on .".toList (code ++ ['\n']) = false :=
        containsSub_snoc_newline (by decide) (by decide) hcode
      have hFIX : containsSub "focusing on .".toList
          (analysisPromptHead ++ "general quality".toList ++ analysisPromptTail) = false := by
        decide
      have hst : ∀ k, k < ("focusing on .".toList).length → 0 < k →
          ("focusing on .".toList.take k).isSuffixOf
            (analysisPromptHead ++ "general quality".toList ++ analysisPromptTail) = false := by
        decide
      rw [hprompt]
      apply containsSub_append_none hFIX hXnl
      intro k hk0 hkl hpair
      rw [hst k hkl hk0] at hpair
      simp at hpair
  · intro hne
    cases areas with
    | nil => exact absurd rfl hne
    | cons a l =>
      apply containsSub_iff.mpr
      refine ⟨analysisPromptHead, analysisPromptTail ++ code ++ "\n".toList, ?_⟩
      have hfocus : focusStr (a :: l) = List.intercalate ", ".toList (a :: l) := rfl
      simp [analysis_prompt, hfocus, List.append_assoc]

/-- C8 witness: a concrete request with empty `focus_areas` whose code does
not contain the phrase — the prompt contains "general quality" and not
"focusing on .". -/
theorem c8_focus_default_phrase_witness :
    containsSub "general quality".toList (analysis_prompt ⟨"print(1)".toList, []⟩) = true ∧
    containsSub "focusing on .".toList (analysis_prompt ⟨"print(1)".toList, []⟩) = false :=
  ⟨((c8_focus_default_phrase "print(1)".toList []).1 rfl).2.1,
   ((c8_focus_default_phrase "print(1)".toList []).1 rfl).2.2 (by decide)⟩

/-- C10: `focus_areas = [""]` is a non-empty (truthy) list, so the default
is not applied: the joined focus string is empty, the text after the first
"focusing on " is "." (the prompt contains "focusing on ."), and the
default phrase "general quality" appears nowhere unless the submitted code
contains it verbatim. -/
theorem c10_empty_element_no_default (code : List Char) :
    splitFirst "focusing on ".toList (analysis_prompt ⟨code, [[]]⟩) =
      some ("\nYou are a senior code reviewer.\n\nAnalyze the following code ".toList,
        analysisPromptTail ++ code ++ "\n".toList) ∧
    containsSub "focusing on .".toList (analysis_prompt ⟨code, [[]]⟩) = true ∧
    (containsSub "general quality".toList code = false →
      containsSub "general quality".toList (analysis_prompt ⟨code, [[]]⟩) = false) := by
  have hfocus : focusStr [([] : List Char)] = [] := by decide
  have hprompt : analysis_prompt ⟨code, [[]]⟩ =
      (analysisPromptHead ++ analysisPromptTail) ++ (code ++ "\n".toList) := by
    simp [analysis_prompt, hfocus, List.append_assoc]
  refine ⟨?_, ?_, ?_⟩
  · have h0 : splitFirst "focusing on ".toList analysisPromptHead =
        some ("\nYou are a senior code reviewer.\n\nAnalyze the following code ".toList,
          []) := by decide
    have h1 := splitFirst_append (analysisPromptTail ++ code ++ "\n".toList) h0
    have h2 : analysis_prompt ⟨code, [[]]⟩ =
        analysisPromptHead ++ (analysisPromptTail ++ code ++ "\n".toList) := by
      simp [analysis_prompt, hfocus, List.append_assoc]
    rw [h2]
    simpa [List.append_assoc] using h1
  · apply containsSub_iff.mpr
    refine ⟨"\nYou are a senior code reviewer.\n\nAnalyze the following code ".toList,
      "\n\nReturn findings strictly in this format:\n\nCritical Issues:\nHigh Priority:\nMedium Priority:\nLow Priority:\n\nCode:\n".toList ++
        code ++ "\n".toList, ?_⟩
    have hconc : analysisPromptHead ++ analysisPromptTail =
        ("\nYou are a senior code reviewer.\n\nAnalyze the following code ".toList ++
          "focusing on .".toList) ++
          "\n\nReturn findings strictly in this format:\n\nCritical Issues:\nHigh Priority:\nMedium Priority:\nLow Priority:\n\nCode:\n".toList := by
      decide
    rw [hprompt, hconc]
    simp [List.append_assoc]
  · intro hcode
    have hXnl : containsSub "general quality".toList (code ++ ['\n']) = false :=
      containsSub_snoc_newline (by decide) (by decide) hcode
    have hFIX : containsSub "general quality".toList
        (analysisPromptHead ++ analysisPromptTail) = false := by decide
    have hst : ∀ k, k < ("general quality".toList).length → 0 < k →
        ("general quality".toList.take k).isSuffixOf
          (analysisPromptHead ++ analysisPromptTail) = false := by decide
    rw [hprompt]
    apply containsSub_append_none hFIX hXnl
    intro k hk0 hkl hpair
    rw [hst k hkl hk0] at hpair
    simp at hpair

/-- C10 witness: concrete code, focus_areas = [""]; the prompt contains
"focusing on ." and not "general quality". -/
theorem c10_empty_element_no_default_witness :
    containsSub "focusing on .".toList (analysis_prompt ⟨"print(1)".toList, [[]]⟩) = true ∧
    containsSub "general quality".toList (analysis_prompt ⟨"print(1)".toList, [[]]⟩) = false :=
  ⟨(c10_empty_element_no_default "print(1)".toList).2.1,
   (c10_empty_element_no_default "print(1)".toList).2.2 (by decide)⟩

theorem decodeIssues_error_of_mem {xs : List Json} {j : Json} (hj : j ∈ xs)
    (hfail : issueDecodeFailed (decodeIssue j) = true) :
    ∃ e, decodeIssues xs = Except.error e := by
  induction xs with
  | nil => cases hj
  | cons x rest ih =>
    rcases List.mem_cons.mp hj with rfl | hmem
    · cases hdi : decodeIssue j with
      | error e => exact ⟨e, by simp [decodeIssues, hdi]⟩
      | ok v => rw [hdi] at hfail; simp [issueDecodeFailed] at hfail
    · cases hdi : decodeIssue x with
      | error e => exact ⟨e, by simp [decodeIssues, hdi]⟩
      | ok v =>
        obtain ⟨e, he⟩ := ih hmem
        exact ⟨e, by simp [decodeIssues, hdi, he]⟩

/-- C7 (modelled from the spec; the structured-mode snapshot is not under
`src/`): strict decoding — malformed JSON fails, a missing `risk_score`
fails, an out-of-range `risk_score` fails, a severity outside the
enumeration fails the issue and thereby the whole decode, and any
successful decode carries a `risk_score` within 0..100 (no coercion, no
fallback to zeros). -/
theorem c7_structured_decode_strict :
    decodeStructured none = .error .malformedJson ∧
    (∀ fs, getField fs "risk_score" = none →
      decodeFailed (decodeStructured (some (.obj fs))) = true) ∧
    (∀ fs n, getField fs "risk_score" = some (.num n) → (n < 0 ∨ 100 < n) →
      decodeFailed (decodeStructured (some (.obj fs))) = true) ∧
    (∀ fs s, getField fs "severity" = some (.str s) → severityOfString s = none →
      issueDecodeFailed (decodeIssue (.obj fs)) = true) ∧
    (∀ fs xs j, getField fs "issues" = some (.arr xs) → j ∈ xs →
      issueDecodeFailed (decodeIssue j) = true →
      decodeFailed (decodeStructured (some (.obj fs))) = true) ∧
    (∀ raw r, decodeStructured raw = .ok r → 0 ≤ r.risk_score ∧ r.risk_score ≤ 100) := by
  refine ⟨rfl, ?_, ?_, ?_, ?_, ?_⟩
  · intro fs h
    simp [decodeStructured, h, decodeFailed]
  · intro fs n h hn
    simp only [decodeStructured, h]
    rw [if_neg (by omega)]
    simp [decodeFailed]
  · intro fs s h hsev
    simp [decodeIssue, h, hsev, issueDecodeFailed]
  · intro fs xs j hissues hj hfail
    obtain ⟨e, he⟩ := decodeIssues_error_of_mem hj hfail
    cases hrs : getField fs "risk_score" with
    | none => simp [decodeStructured, hrs, decodeFailed]
    | some v =>
      cases v with
      | num n =>
        by_cases hn : 0 ≤ n ∧ n ≤ 100
        · simp [decodeStructured, hrs, hissues, if_pos hn, he, decodeFailed]
        · simp [decodeStructured, hrs, if_neg hn, decodeFailed]
      | null => simp [decodeStructured, hrs, decodeFailed]
      | bool b => simp [decodeStructured, hrs, decodeFailed]
      | str s => simp [decodeStructured, hrs, decodeFailed]
      | arr xs2 => simp [decodeStructured, hrs, decodeFailed]
      | obj fs2 => simp [decodeStructured, hrs, decodeFailed]
  · intro raw r h
    unfold decodeStructured at h
    repeat' split at h
    all_goals try contradiction
    injection h with h2
    subst h2
    refine ⟨?_, ?_⟩ <;> simp <;> omega

/-- C7 witness: concrete rejections — missing `risk_score`,
`risk_score` = 150, severity `"urgent"` outside the enumeration (both at
issue level and propagated through a whole decode). -/
theorem c7_structured_decode_strict_witness :
    decodeFailed (decodeStructured (some (.obj [("issues", .arr []),
        ("summary", .str "ok")]))) = true ∧
    decodeFailed (decodeStructured (some (.obj [("risk_score", .num 150),
        ("issues", .arr [])]))) = true ∧
    issueDecodeFailed (decodeIssue (.obj [("severity", .str "urgent"),
        ("description", .str "d")])) = true ∧
    decodeFailed (decodeStructured (some (.obj [("risk_score", .num 10),
        ("issues", .arr [.obj [("severity", .str "urgent"),
          ("description", .str "d")]])]))) = true :=
  ⟨c7_structured_decode_strict.2.1 _ rfl,
   c7_structured_decode_strict.2.2.1 _ 150 rfl (Or.inr (by omega)),
   c7_structured_decode_strict.2.2.2.1 _ "urgent" rfl rfl,
   c7_structured_decode_strict.2.2.2.2.1 _ _
     (.obj [("severity", .str "urgent"), ("description", .str "d")]) rfl
     (List.mem_cons_self _ _)
     (c7_structured_decode_strict.2.2.2.1 _ "urgent" rfl rfl)⟩

/-- C6 witness: analysis succeeds, rewrite raises with provider detail;
the response is exactly the generic 500 error. -/
theorem c6_upstream_failure_generic_witness :
    (review_code ⟨"x".toList, []⟩ (.ok (some "Critical Issues:\nbug".toList))
        (.raised "connection timeout to provider")).result =
      .error ⟨500, "Internal AI processing error"⟩ :=
  (c6_upstream_failure_generic ⟨"x".toList, []⟩ (by decide)
      "connection timeout to provider").2 (some "Critical Issues:\nbug".toList)

end CodeRefine

